import Mathlib

/-!
Verification of the `monad` repository's front end (crates/syntax): the
hand-written lexer (`lexer.rs`) and the recursive-descent expression parser
(`parser.rs`).  The Rust sources are embedded shallowly below: iterator state
becomes explicit list-passing, `usize` byte offsets become `Nat`, fallible
paths return `Except`, and Rust panics (string slicing off a UTF-8 char
boundary, index out of bounds) surface as `Option.none`.
-/

namespace Monad4

/-- Modelled from the spec: the `span` module the lexer and the parser import
(`SourceId`, `Span`, `Spanned`, `SpannedExt`) is not among the provided source
files (two other draft span modules are, but neither has `SourceId` nor the
tuple-shaped `Spanned` the lexer and parser use).  Per spec section 3 a span is
a half-open byte range `[start, stop)` inside one source, carrying the source
identifier; both draft modules and the spec agree that merge/join takes the
minimum start and the maximum end. -/
structure Span where
  src : Nat
  start : Nat
  stop : Nat
deriving DecidableEq, Repr

/-- Modelled from the spec: merge/join of two spans takes the minimum start and
maximum end (spec section 3; identical in both draft span modules). -/
def Span.merge (a b : Span) : Span :=
  ⟨a.src, min a.start b.start, max a.stop b.stop⟩

/-- Spanned values: the lexer and the parser use `Spanned<T>` as a pair
`(value, span)` (they pattern-match tuples and project with `.0`/`.1`). -/
abbrev Spanned (α : Type) : Type := α × Span

/-- The span projection provided by `SpannedExt` (`left.span()` in
`Parser::binary`). -/
def Spanned.span {α : Type} (x : Spanned α) : Span := x.2

/-- Aliases so constructor fields named like their payload types below do not
shadow the payload types. -/
abbrev Chr : Type := Char

/-- Alias for `Bool` used for payload fields of constructors named `Bool`. -/
abbrev Bl : Type := Bool

/-- Alias for `String` payloads. -/
abbrev Str : Type := String

/-- `LexError` from lexer.rs.  `InvalidInt`/`InvalidFloat` carry the offending
lexeme, `UnknownEscape` the escape character. -/
inductive LexError where
  | InvalidInt (s : Str)
  | InvalidFloat (s : Str)
  | EmptyChar
  | MultiChar
  | UnknownEscape (c : Chr)
  | UnterminatedChar
  | InvalidNumberChar
  | InvalidToken
deriving DecidableEq, Repr

/-- `Token` from lexer.rs.  The `Real` payload is `f64` in the source; floating
point is not modelled, so the token carries the literal text that Rust would
hand to `f64::from_str` (no claim inspects a `Real` payload, only which token
or error is produced, which is decided by `rustF64Accepts` below). -/
inductive Token where
  | KwFun | KwInt | KwBool | KwReal | KwChar | KwUnit | KwVal | KwLet | KwIn
  | KwEnd | KwIf | KwThen | KwElse | KwNot | KwMut | KwWhile | KwDo | KwMod
  | KwDiv
  | Comma | Cons | Eq | NotEq | Colon | ColonEq | LParen | RParen
  | Gt | GtEq | Less | LessEq | AndAnd | Or | And | Tilde | Plus | Minus | Star
  | Real (text : Str)
  | Int (v : Nat)
  | Bool (b : Bl)
  | Char (c : Chr)
  | Ident (s : Str)
  | Eof
deriving DecidableEq, Repr

/-- Rust `char::is_whitespace`: the Unicode White_Space property (a fixed list
of 25 code points). -/
def rustIsWhitespace (c : Char) : Bool :=
  let n := c.toNat
  (0x09 ≤ n && n ≤ 0x0D) || n == 0x20 || n == 0x85 || n == 0xA0 ||
  n == 0x1680 || (0x2000 ≤ n && n ≤ 0x200A) || n == 0x2028 || n == 0x2029 ||
  n == 0x202F || n == 0x205F || n == 0x3000

/-- Rust `char::is_alphanumeric` (Unicode Alphabetic or a Number category).
Modelled exactly on code points up to U+00FF (ASCII alphanumerics; the Latin-1
letters U+00AA, U+00B5, U+00BA, U+00C0–U+00D6, U+00D8–U+00F6, U+00F8–U+00FF;
the Latin-1 numeric characters U+00B2, U+00B3, U+00B9, U+00BC–U+00BE) and
conservatively false above U+00FF; no theorem below evaluates the lexer on a
character above U+00FF. -/
def rustIsAlphanumeric (c : Char) : Bool :=
  let n := c.toNat
  (0x30 ≤ n && n ≤ 0x39) || (0x41 ≤ n && n ≤ 0x5A) || (0x61 ≤ n && n ≤ 0x7A) ||
  n == 0xAA || n == 0xB5 || n == 0xBA ||
  n == 0xB2 || n == 0xB3 || n == 0xB9 || (0xBC ≤ n && n ≤ 0xBE) ||
  (0xC0 ≤ n && n ≤ 0xD6) || (0xD8 ≤ n && n ≤ 0xF6) || (0xF8 ≤ n && n ≤ 0xFF)

/-- Byte length of a character list under UTF-8 (Rust `str::len`). -/
def utf8Len (l : List Char) : Nat :=
  (l.map Char.utf8Size).sum

/-- The items produced by Rust `str::char_indices` starting at byte offset
`pos`: each character paired with its byte offset. -/
def charIndicesFrom (pos : Nat) : List Char → List (Nat × Char)
  | [] => []
  | c :: cs => (pos, c) :: charIndicesFrom (pos + c.utf8Size) cs

/-- Helper for `byteSlice`: take characters until byte offset `stop`, walking
from byte offset `pos`.  Returns `none` when `stop` is out of bounds or not a
character boundary (a Rust slicing panic). -/
def byteTake (pos : Nat) (l : List Char) (stop : Nat) : Option (List Char) :=
  if pos = stop then some []
  else
    match l with
    | [] => none
    | c :: cs =>
      if pos + c.utf8Size ≤ stop then (byteTake (pos + c.utf8Size) cs stop).map (c :: ·)
      else none

/-- Helper for `byteSlice`: drop characters until byte offset `start`.
Returns `none` when `start` is out of bounds or not a character boundary. -/
def byteDrop (pos : Nat) (l : List Char) (start : Nat) : Option (List Char) :=
  if pos = start then some l
  else
    match l with
    | [] => none
    | c :: cs =>
      if pos + c.utf8Size ≤ start then byteDrop (pos + c.utf8Size) cs start
      else none

/-- Rust string slicing `&s[start..stop]` on a source given as characters:
`none` models the panic raised when `start` or `stop` is out of bounds or not
on a UTF-8 character boundary (or `start > stop`). -/
def byteSlice (s : List Char) (start stop : Nat) : Option (List Char) :=
  match byteDrop 0 s start with
  | none => none
  | some rest => byteTake start rest stop

/-- Rust `usize::from_str` (as used by `"...".parse::<usize>()` in
`lex_number`): an optional leading `+` followed by one or more ASCII digits,
rejecting anything else, with overflow above `usize::MAX` (64-bit) an error.
Returns the parsed value on success. -/
def rustParseUsize (s : List Char) : Option Nat :=
  let digits := match s with
    | '+' :: rest => rest
    | other => other
  if digits.isEmpty then none
  else if digits.all Char.isDigit then
    let v := digits.foldl (fun acc c => acc * 10 + (c.toNat - 0x30)) 0
    if v ≤ 2 ^ 64 - 1 then some v else none
  else none

/-- Digit-run check for the `f64` grammar: one or more ASCII digits. -/
def isDigitRun (l : List Char) : Bool :=
  !l.isEmpty && l.all Char.isDigit

/-- Splits `l` at the first `e`/`E`, for the exponent part of the `f64`
grammar. -/
def splitAtExp (l : List Char) : List Char × Option (List Char) :=
  match l with
  | [] => ([], none)
  | c :: cs =>
    if c = 'e' ∨ c = 'E' then ([], some cs)
    else
      let (pre, post) := splitAtExp cs
      (c :: pre, post)

/-- Mantissa of the Rust `f64` grammar: `Digit+ '.'? Digit*` or `'.' Digit+`. -/
def f64MantissaOk (l : List Char) : Bool :=
  match l.splitOn '.' with
  | [whole] => isDigitRun whole
  | [whole, frac] =>
    (isDigitRun whole && (frac.isEmpty || isDigitRun frac)) ||
    (whole.isEmpty && isDigitRun frac)
  | _ => false

/-- Exponent of the Rust `f64` grammar: optional sign then `Digit+`. -/
def f64ExpOk (l : List Char) : Bool :=
  match l with
  | '+' :: rest => isDigitRun rest
  | '-' :: rest => isDigitRun rest
  | other => isDigitRun other

/-- Whether Rust `f64::from_str` accepts the string (the documented grammar:
optional sign, then `inf`, `infinity`, `nan` case-insensitively, or a number
`Digit+ '.'? Digit* Exp?` / `'.' Digit+ Exp?` with `Exp = (e|E) Sign?
Digit+`).  Only acceptance is modelled; the floating-point value itself is
not. -/
def rustF64Accepts (s : List Char) : Bool :=
  let body := match s with
    | '+' :: rest => rest
    | '-' :: rest => rest
    | other => other
  let lower := body.map Char.toLower
  if lower = "inf".toList ∨ lower = "infinity".toList ∨ lower = "nan".toList then
    true
  else
    match splitAtExp body with
    | (mant, none) => f64MantissaOk mant
    | (mant, some e) => f64MantissaOk mant && f64ExpOk e

/-- The lexer state from lexer.rs: the peekable `CharIndices` iterator becomes
the list of remaining characters with their byte offsets, alongside the full
source and `current_pos` (the byte offset of the most recently consumed
character; initialised to 0). -/
structure Lexer where
  srcId : Nat
  chars : List (Nat × Char)
  source : List Char
  currentPos : Nat
deriving DecidableEq, Repr

/-- `Lexer::new`. -/
def Lexer.new (srcId : Nat) (input : List Char) : Lexer :=
  { srcId := srcId, chars := charIndicesFrom 0 input, source := input,
    currentPos := 0 }

/-- `Lexer::next_char`: pops the next `(byte offset, char)` pair, recording the
offset in `current_pos`. -/
def Lexer.nextChar (lx : Lexer) : Option (Nat × Char) × Lexer :=
  match lx.chars with
  | [] => (none, lx)
  | (p, c) :: rest => (some (p, c), { lx with chars := rest, currentPos := p })

/-- `next_char` with the returned character discarded (the `self.next_char();`
statements in the source). -/
def Lexer.bump (lx : Lexer) : Lexer := lx.nextChar.2

/-- `Lexer::peek_char`. -/
def Lexer.peekChar (lx : Lexer) : Option Char :=
  lx.chars.head?.map (·.2)

/-- The consumption loop of `Lexer::skip_whitespace`: consumes characters
while they satisfy `char::is_whitespace`, returning the remaining
`(offset, char)` pairs and the final `current_pos`. -/
def wsScan : List (Nat × Char) → Nat → List (Nat × Char) × Nat
  | [], pos => ([], pos)
  | (p, c) :: rest, pos =>
    if rustIsWhitespace c then wsScan rest p
    else ((p, c) :: rest, pos)

/-- `Lexer::skip_whitespace`. -/
def Lexer.skipWhitespace (lx : Lexer) : Lexer :=
  match wsScan lx.chars lx.currentPos with
  | (chars2, pos2) => { lx with chars := chars2, currentPos := pos2 }

/-- `Lexer::lex_colon`. -/
def Lexer.lexColon (lx : Lexer) : Except LexError Token × Lexer :=
  let lx1 := lx.bump
  match lx1.peekChar with
  | some ':' => (.ok .Cons, lx1.bump)
  | some '=' => (.ok .ColonEq, lx1.bump)
  | _ => (.ok .Colon, lx1)

/-- `Lexer::lex_less`. -/
def Lexer.lexLess (lx : Lexer) : Except LexError Token × Lexer :=
  let lx1 := lx.bump
  match lx1.peekChar with
  | some '>' => (.ok .NotEq, lx1.bump)
  | some '=' => (.ok .LessEq, lx1.bump)
  | _ => (.ok .Less, lx1)

/-- `Lexer::lex_gt`. -/
def Lexer.lexGt (lx : Lexer) : Except LexError Token × Lexer :=
  let lx1 := lx.bump
  if lx1.peekChar = some '=' then (.ok .GtEq, lx1.bump)
  else (.ok .Gt, lx1)

/-- `Lexer::lex_and`. -/
def Lexer.lexAnd (lx : Lexer) : Except LexError Token × Lexer :=
  let lx1 := lx.bump
  if lx1.peekChar = some '&' then (.ok .AndAnd, lx1.bump)
  else (.ok .And, lx1)

/-- `Lexer::lex_or`: a lone `|` is an `InvalidToken` error. -/
def Lexer.lexOr (lx : Lexer) : Except LexError Token × Lexer :=
  let lx1 := lx.bump
  if lx1.peekChar = some '|' then (.ok .Or, lx1.bump)
  else (.error .InvalidToken, lx1)

/-- The closing-quote step of `Lexer::lex_char_literal` (its final `match
self.next_char()`), with `r` the decoded payload character. -/
def Lexer.charClose (r : Char) (lx : Lexer) : Except LexError Token × Lexer :=
  match lx.nextChar with
  | (some (_, q), lx1) =>
    if q = '\'' then (.ok (.Char r), lx1) else (.error .MultiChar, lx1)
  | (none, lx1) => (.error .UnterminatedChar, lx1)

/-- `Lexer::lex_char_literal`. -/
def Lexer.lexCharLiteral (lx : Lexer) : Except LexError Token × Lexer :=
  let lx1 := lx.bump
  match lx1.nextChar with
  | (none, lx2) => (.error .UnterminatedChar, lx2)
  | (some (_, c), lx2) =>
    if c = '\\' then
      match lx2.nextChar with
      | (none, lx3) => (.error .UnterminatedChar, lx3)
      | (some (_, esc), lx3) =>
        match esc with
        | '\'' => Lexer.charClose '\'' lx3
        | '\"' => Lexer.charClose '\"' lx3
        | '\\' => Lexer.charClose '\\' lx3
        | 'n' => Lexer.charClose '\n' lx3
        | 'r' => Lexer.charClose '\r' lx3
        | 't' => Lexer.charClose '\t' lx3
        | '0' => Lexer.charClose '\x00' lx3
        | _ => (.error (.UnknownEscape esc), lx3)
    else if c = '\'' then (.error .EmptyChar, lx2)
    else Lexer.charClose c lx2

/-- The consumption loop of `Lexer::lex_number`: walks the remaining
`(offset, char)` pairs with the running `current_pos` and the `has_dot` /
`has_exponent` flags, consuming digits, one dot, and one exponent marker with
an optional sign, and returns the remaining pairs, the final `current_pos`,
and the final flags.  The leading `Nat` is fuel driving the recursion; the
loop consumes at least one pair per step, so the fuel `lexNumber` supplies
never runs out (`numScan_fuel_sufficient`) and the `none` of exhaustion is
unreachable from `lexNumber`. -/
def numScan : Nat → List (Nat × Char) → Nat → Bool → Bool →
    Option (List (Nat × Char) × Nat × Bool × Bool)
  | 0, _, _, _, _ => none
  | Nat.succ _, [], pos, hasDot, hasExp => some ([], pos, hasDot, hasExp)
  | Nat.succ fuel, (p, c) :: rest, pos, hasDot, hasExp =>
    if c = '.' ∧ hasDot = false ∧ hasExp = false then
      numScan fuel rest p true hasExp
    else if c.isDigit then
      numScan fuel rest p hasDot hasExp
    else if (c = 'e' ∨ c = 'E') ∧ hasExp = false then
      match rest with
      | (p2, s) :: rest2 =>
        if s = '+' ∨ s = '-' then numScan fuel rest2 p2 true true
        else numScan fuel rest p true true
      | [] => numScan fuel [] p true true
    else some ((p, c) :: rest, pos, hasDot, hasExp)

/-- `Lexer::lex_number`.  `none` models the Rust slicing panic (the slice
bounds taken from the stale `start_pos` and `current_pos + 1` may miss a UTF-8
character boundary). -/
def Lexer.lexNumber (lx : Lexer) : Option (Except LexError Token × Lexer) :=
  let startPos := lx.currentPos
  match numScan (lx.chars.length + 1) lx.chars lx.currentPos false false with
  | none => none
  | some (chars2, pos2, hasDot, hasExp) =>
    let lx2 : Lexer := { lx with chars := chars2, currentPos := pos2 }
    let endPos := lx2.currentPos + 1
    match byteSlice lx.source startPos endPos with
    | none => none
    | some numChars =>
      let numStr : String := ⟨numChars⟩
      if hasDot || hasExp then
        if rustF64Accepts numChars then some (.ok (.Real numStr), lx2)
        else some (.error (.InvalidFloat numStr), lx2)
      else
        match rustParseUsize numChars with
        | some v => some (.ok (.Int v), lx2)
        | none => some (.error (.InvalidInt numStr), lx2)

/-- The consumption loop of `Lexer::lex_ident`: consumes characters while they
are alphanumeric (Rust `char::is_alphanumeric`) or `_`. -/
def identScan : List (Nat × Char) → Nat → List (Nat × Char) × Nat
  | [], pos => ([], pos)
  | (p, c) :: rest, pos =>
    if rustIsAlphanumeric c || c = '_' then identScan rest p
    else ((p, c) :: rest, pos)

/-- `Lexer::classify_ident`: the keyword table. -/
def classifyIdent (s : String) : Token :=
  if s = "fun" then .KwFun
  else if s = "int" then .KwInt
  else if s = "bool" then .KwBool
  else if s = "real" then .KwReal
  else if s = "char" then .KwChar
  else if s = "unit" then .KwUnit
  else if s = "true" then .Bool true
  else if s = "false" then .Bool false
  else if s = "val" then .KwVal
  else if s = "let" then .KwLet
  else if s = "in" then .KwIn
  else if s = "end" then .KwEnd
  else if s = "if" then .KwIf
  else if s = "then" then .KwThen
  else if s = "else" then .KwElse
  else if s = "not" then .KwNot
  else if s = "mut" then .KwMut
  else if s = "do" then .KwDo
  else if s = "while" then .KwWhile
  else if s = "mod" then .KwMod
  else if s = "div" then .KwDiv
  else .Ident s

/-- `Lexer::lex_ident`.  `none` models the Rust slicing panic, as in
`lexNumber`. -/
def Lexer.lexIdent (lx : Lexer) : Option (Except LexError Token × Lexer) :=
  let startPos := lx.currentPos
  match identScan lx.chars lx.currentPos with
  | (chars2, pos2) =>
    let lx2 : Lexer := { lx with chars := chars2, currentPos := pos2 }
    let endPos := pos2 + 1
    match byteSlice lx.source startPos endPos with
    | none => none
    | some identChars => some (.ok (classifyIdent ⟨identChars⟩), lx2)

/-- The per-iteration dispatch of `Lexer::tokenize` (its `match c` on the
peeked character `c` at byte offset `start`; `lx` still holds the peeked
character).  `none` models a Rust panic inside `lex_number`/`lex_ident`. -/
def Lexer.lexDispatch (lx : Lexer) (c : Char) :
    Option (Except LexError Token × Lexer) :=
  if c = ',' then some (.ok .Comma, lx.bump)
  else if c = '~' then some (.ok .Tilde, lx.bump)
  else if c = '(' then some (.ok .LParen, lx.bump)
  else if c = ')' then some (.ok .RParen, lx.bump)
  else if c = '=' then some (.ok .Eq, lx.bump)
  else if c = '+' then some (.ok .Plus, lx.bump)
  else if c = '-' then some (.ok .Minus, lx.bump)
  else if c = '*' then some (.ok .Star, lx.bump)
  else if c = ':' then some lx.lexColon
  else if c = '<' then some lx.lexLess
  else if c = '>' then some lx.lexGt
  else if c = '&' then some lx.lexAnd
  else if c = '|' then some lx.lexOr
  else if c = '\'' then some lx.lexCharLiteral
  else if c.isDigit then lx.lexNumber
  else if c = '.' then
    match lx.chars[1]? with
    | some (_, d) =>
      if d.isDigit then lx.lexNumber
      else some (.error .InvalidToken, lx.bump)
    | none => some (.error .InvalidToken, lx.bump)
  else if c.isAlpha || c = '_' then lx.lexIdent
  else some (.error .InvalidToken, lx.bump)

lemma wsScan_fst_length_le (l : List (Nat × Char)) (pos : Nat) :
    (wsScan l pos).1.length ≤ l.length := by
  induction l generalizing pos with
  | nil => simp [wsScan]
  | cons hd tl ih =>
    obtain ⟨p, c⟩ := hd
    simp only [wsScan]
    split
    · exact le_trans (ih p) (Nat.le_succ _)
    · exact le_refl _

lemma skipWhitespace_chars_le (lx : Lexer) :
    lx.skipWhitespace.chars.length ≤ lx.chars.length := by
  simp only [Lexer.skipWhitespace]
  exact wsScan_fst_length_le lx.chars lx.currentPos

lemma numScan_some_length_le (fuel : Nat) :
    ∀ (l : List (Nat × Char)) (pos : Nat) (d e : Bool)
      (r : List (Nat × Char) × Nat × Bool × Bool),
      numScan fuel l pos d e = some r → r.1.length ≤ l.length := by
  induction fuel with
  | zero => intro l pos d e r h; simp [numScan] at h
  | succ f ih =>
    intro l pos d e r h
    match l with
    | [] =>
      simp only [numScan, Option.some.injEq] at h
      rw [← h]
    | (p, c) :: rest =>
      simp only [numScan] at h
      split at h
      · exact le_trans (ih _ _ _ _ _ h) (Nat.le_succ _)
      split at h
      · exact le_trans (ih _ _ _ _ _ h) (Nat.le_succ _)
      split at h
      · split at h
        · split at h
          · have := ih _ _ _ _ _ h
            simp only [List.length_cons] at *
            omega
          · have := ih _ _ _ _ _ h
            simp only [List.length_cons] at *
            omega
        · have := ih _ _ _ _ _ h
          simp only [List.length_cons, List.length_nil] at *
          omega
      · simp only [Option.some.injEq] at h
        rw [← h]

lemma numScan_fuel_sufficient (fuel : Nat) :
    ∀ (l : List (Nat × Char)) (pos : Nat) (d e : Bool),
      l.length < fuel → (numScan fuel l pos d e).isSome = true := by
  induction fuel with
  | zero => intro l pos d e h; omega
  | succ f ih =>
    intro l pos d e h
    match l with
    | [] => simp [numScan]
    | (p, c) :: rest =>
      simp only [List.length_cons] at h
      simp only [numScan]
      split
      · exact ih _ _ _ _ (by omega)
      split
      · exact ih _ _ _ _ (by omega)
      split
      · split
        · rename_i p2 s rest2
          split
          · refine ih _ _ _ _ ?_
            simp only [List.length_cons] at *
            omega
          · refine ih _ _ _ _ ?_
            simp only [List.length_cons] at *
            omega
        · exact ih _ _ _ _ (by simp; omega)
      · simp

lemma identScan_fst_length_le (l : List (Nat × Char)) (pos : Nat) :
    (identScan l pos).1.length ≤ l.length := by
  induction l generalizing pos with
  | nil => simp [identScan]
  | cons hd tl ih =>
    obtain ⟨p, c⟩ := hd
    simp only [identScan]
    split
    · exact le_trans (ih p) (Nat.le_succ _)
    · exact le_refl _

lemma nextChar_chars_le (lx : Lexer) :
    lx.nextChar.2.chars.length ≤ lx.chars.length := by
  rcases h : lx.chars with _ | ⟨⟨p, c⟩, rest⟩ <;> simp [Lexer.nextChar, h]

lemma bump_chars_le (lx : Lexer) :
    lx.bump.chars.length ≤ lx.chars.length :=
  nextChar_chars_le lx

lemma bump_chars_cons (lx : Lexer) (p : Nat) (c : Char)
    (rest : List (Nat × Char)) (h : lx.chars = (p, c) :: rest) :
    lx.bump.chars = rest := by
  simp [Lexer.bump, Lexer.nextChar, h]

lemma nextChar_eq_le (lx lx2 : Lexer) (o : Option (Nat × Char))
    (h : lx.nextChar = (o, lx2)) : lx2.chars.length ≤ lx.chars.length := by
  have := nextChar_chars_le lx
  rw [h] at this
  exact this

lemma charClose_chars_le (r : Char) (lx : Lexer) :
    (Lexer.charClose r lx).2.chars.length ≤ lx.chars.length := by
  simp only [Lexer.charClose]
  split
  · rename_i q lx1 heq
    split
    · exact nextChar_eq_le lx _ _ heq
    · exact nextChar_eq_le lx _ _ heq
  · rename_i lx1 heq
    exact nextChar_eq_le lx _ _ heq

lemma lexColon_chars_le (lx : Lexer) :
    lx.lexColon.2.chars.length ≤ lx.bump.chars.length := by
  simp only [Lexer.lexColon]
  split
  · exact bump_chars_le _
  · exact bump_chars_le _
  · exact le_refl _

lemma lexLess_chars_le (lx : Lexer) :
    lx.lexLess.2.chars.length ≤ lx.bump.chars.length := by
  simp only [Lexer.lexLess]
  split
  · exact bump_chars_le _
  · exact bump_chars_le _
  · exact le_refl _

lemma lexGt_chars_le (lx : Lexer) :
    lx.lexGt.2.chars.length ≤ lx.bump.chars.length := by
  simp only [Lexer.lexGt]
  split
  · exact bump_chars_le _
  · exact le_refl _

lemma lexAnd_chars_le (lx : Lexer) :
    lx.lexAnd.2.chars.length ≤ lx.bump.chars.length := by
  simp only [Lexer.lexAnd]
  split
  · exact bump_chars_le _
  · exact le_refl _

lemma lexOr_chars_le (lx : Lexer) :
    lx.lexOr.2.chars.length ≤ lx.bump.chars.length := by
  simp only [Lexer.lexOr]
  split
  · exact bump_chars_le _
  · exact le_refl _

lemma lexCharLiteral_chars_le (lx : Lexer) :
    lx.lexCharLiteral.2.chars.length ≤ lx.bump.chars.length := by
  simp only [Lexer.lexCharLiteral]
  split
  · rename_i lx2 heq
    exact nextChar_eq_le _ _ _ heq
  · rename_i p1 c lx2 heq
    have h2 : lx2.chars.length ≤ lx.bump.chars.length := nextChar_eq_le _ _ _ heq
    split
    · split
      · rename_i lx3 heq3
        exact le_trans (nextChar_eq_le _ _ _ heq3) h2
      · rename_i p2 esc lx3 heq3
        have h3 : lx3.chars.length ≤ lx.bump.chars.length :=
          le_trans (nextChar_eq_le _ _ _ heq3) h2
        split
        · exact le_trans (charClose_chars_le _ _) h3
        · exact le_trans (charClose_chars_le _ _) h3
        · exact le_trans (charClose_chars_le _ _) h3
        · exact le_trans (charClose_chars_le _ _) h3
        · exact le_trans (charClose_chars_le _ _) h3
        · exact le_trans (charClose_chars_le _ _) h3
        · exact le_trans (charClose_chars_le _ _) h3
        · exact h3
    · split
      · exact h2
      · exact le_trans (charClose_chars_le _ _) h2

lemma isAlpha_rustIsAlphanumeric (c : Char) (h : c.isAlpha = true) :
    rustIsAlphanumeric c = true := by
  simp only [Char.isAlpha, Char.isUpper, Char.isLower, Bool.or_eq_true,
    Bool.and_eq_true, decide_eq_true_eq, Char.le_def, UInt32.le_def,
    BitVec.le_def] at h
  simp only [rustIsAlphanumeric, Bool.or_eq_true, Bool.and_eq_true,
    decide_eq_true_eq, beq_iff_eq]
  have hc : c.toNat = c.val.toBitVec.toNat := rfl
  rw [hc]
  rw [show (UInt32.toBitVec 65).toNat = 65 from rfl,
    show (UInt32.toBitVec 90).toNat = 90 from rfl,
    show (UInt32.toBitVec 97).toNat = 97 from rfl,
    show (UInt32.toBitVec 122).toNat = 122 from rfl] at h
  omega

lemma isDigit_ne_dot (c : Char) (h : c.isDigit = true) : ¬(c = '.') := by
  intro hc; subst hc; simp [Char.isDigit] at h

lemma lexNumber_chars_eq (lx : Lexer) (rl : Except LexError Token × Lexer)
    (chars2 : List (Nat × Char)) (pos2 : Nat) (hasDot hasExp : Bool)
    (hsc : numScan (lx.chars.length + 1) lx.chars lx.currentPos false false =
      some (chars2, pos2, hasDot, hasExp))
    (hres : lx.lexNumber = some rl) : rl.2.chars = chars2 := by
  simp only [Lexer.lexNumber] at hres
  rw [hsc] at hres
  simp only at hres
  rcases hby : byteSlice lx.source lx.currentPos (pos2 + 1) with _ | numChars <;>
    rw [hby] at hres <;> simp only at hres
  · exact Option.noConfusion hres
  · split at hres
    · split at hres <;> (injection hres with h2; rw [← h2])
    · split at hres <;> (injection hres with h2; rw [← h2])

lemma lexNumber_chars_le (lx : Lexer) (p : Nat) (c : Char)
    (rest : List (Nat × Char)) (h : lx.chars = (p, c) :: rest)
    (hc : c.isDigit = true ∨ c = '.') (rl : Except LexError Token × Lexer)
    (hres : lx.lexNumber = some rl) : rl.2.chars.length ≤ rest.length := by
  rcases hsc : numScan (lx.chars.length + 1) lx.chars lx.currentPos false false
    with _ | ⟨chars2, pos2, hasDot, hasExp⟩
  · exfalso
    have := numScan_fuel_sufficient (lx.chars.length + 1) lx.chars
      lx.currentPos false false (by omega)
    rw [hsc] at this
    simp at this
  · have hchars : rl.2.chars = chars2 :=
      lexNumber_chars_eq lx rl chars2 pos2 hasDot hasExp hsc hres
    have hlen : chars2.length ≤ rest.length := by
      rw [h] at hsc
      simp only [List.length_cons] at hsc
      simp only [numScan] at hsc
      split at hsc
      · have := numScan_some_length_le _ _ _ _ _ _ hsc
        simpa using this
      split at hsc
      · have := numScan_some_length_le _ _ _ _ _ _ hsc
        simpa using this
      split at hsc
      · exfalso
        rename_i h1 h2 _
        rcases hc with hd | hdot
        · exact h2 hd
        · exact h1 (by simp [hdot])
      · exfalso
        rename_i h1 h2 _
        rcases hc with hd | hdot
        · exact h2 hd
        · exact h1 (by simp [hdot])
    rw [hchars]
    exact hlen

lemma lexIdent_chars_eq (lx : Lexer) (rl : Except LexError Token × Lexer)
    (hres : lx.lexIdent = some rl) :
    rl.2.chars = (identScan lx.chars lx.currentPos).1 := by
  simp only [Lexer.lexIdent] at hres
  rcases hsc : identScan lx.chars lx.currentPos with ⟨chars2, pos2⟩
  rw [hsc] at hres
  simp only at hres
  rcases hby : byteSlice lx.source lx.currentPos (pos2 + 1) with _ | idChars <;>
    rw [hby] at hres <;> simp only at hres
  · exact Option.noConfusion hres
  · injection hres with h2
    rw [← h2]

lemma lexIdent_chars_le (lx : Lexer) (p : Nat) (c : Char)
    (rest : List (Nat × Char)) (h : lx.chars = (p, c) :: rest)
    (hc : c.isAlpha = true ∨ c = '_') (rl : Except LexError Token × Lexer)
    (hres : lx.lexIdent = some rl) : rl.2.chars.length ≤ rest.length := by
  have hguard : (rustIsAlphanumeric c || c = '_') = true := by
    rcases hc with ha | hu
    · simp [isAlpha_rustIsAlphanumeric c ha]
    · simp [hu]
  have hscan : (identScan lx.chars lx.currentPos).1.length ≤ rest.length := by
    rw [h, identScan, if_pos hguard]
    exact identScan_fst_length_le _ _
  rw [lexIdent_chars_eq lx rl hres]
  exact hscan

lemma lexDispatch_chars_lt (lx : Lexer) (p : Nat) (c : Char)
    (rest : List (Nat × Char)) (h : lx.chars = (p, c) :: rest)
    (rl : Except LexError Token × Lexer)
    (hres : lx.lexDispatch c = some rl) :
    rl.2.chars.length < lx.chars.length := by
  have hbump : lx.bump.chars = rest := bump_chars_cons lx p c rest h
  have hlen : lx.chars.length = rest.length + 1 := by rw [h]; rfl
  rw [hlen]
  have hbb : lx.bump.chars.length ≤ rest.length := le_of_eq (by rw [hbump])
  rw [Lexer.lexDispatch.eq_def] at hres
  by_cases h1 : c = ','
  · rw [if_pos h1] at hres; cases hres; simp only; omega
  rw [if_neg h1] at hres
  by_cases h2 : c = '~'
  · rw [if_pos h2] at hres; cases hres; simp only; omega
  rw [if_neg h2] at hres
  by_cases h3 : c = '('
  · rw [if_pos h3] at hres; cases hres; simp only; omega
  rw [if_neg h3] at hres
  by_cases h4 : c = ')'
  · rw [if_pos h4] at hres; cases hres; simp only; omega
  rw [if_neg h4] at hres
  by_cases h5 : c = '='
  · rw [if_pos h5] at hres; cases hres; simp only; omega
  rw [if_neg h5] at hres
  by_cases h6 : c = '+'
  · rw [if_pos h6] at hres; cases hres; simp only; omega
  rw [if_neg h6] at hres
  by_cases h7 : c = '-'
  · rw [if_pos h7] at hres; cases hres; simp only; omega
  rw [if_neg h7] at hres
  by_cases h8 : c = '*'
  · rw [if_pos h8] at hres; cases hres; simp only; omega
  rw [if_neg h8] at hres
  by_cases h9 : c = ':'
  · rw [if_pos h9] at hres
    injection hres with hh
    have := lexColon_chars_le lx
    rw [hh] at this
    omega
  rw [if_neg h9] at hres
  by_cases h10 : c = '<'
  · rw [if_pos h10] at hres
    injection hres with hh
    have := lexLess_chars_le lx
    rw [hh] at this
    omega
  rw [if_neg h10] at hres
  by_cases h11 : c = '>'
  · rw [if_pos h11] at hres
    injection hres with hh
    have := lexGt_chars_le lx
    rw [hh] at this
    omega
  rw [if_neg h11] at hres
  by_cases h12 : c = '&'
  · rw [if_pos h12] at hres
    injection hres with hh
    have := lexAnd_chars_le lx
    rw [hh] at this
    omega
  rw [if_neg h12] at hres
  by_cases h13 : c = '|'
  · rw [if_pos h13] at hres
    injection hres with hh
    have := lexOr_chars_le lx
    rw [hh] at this
    omega
  rw [if_neg h13] at hres
  by_cases h14 : c = '\''
  · rw [if_pos h14] at hres
    injection hres with hh
    have := lexCharLiteral_chars_le lx
    rw [hh] at this
    omega
  rw [if_neg h14] at hres
  by_cases h15 : c.isDigit = true
  · rw [if_pos h15] at hres
    have := lexNumber_chars_le lx p c rest h (Or.inl h15) rl hres
    omega
  rw [if_neg h15] at hres
  by_cases h16 : c = '.'
  · rw [if_pos h16] at hres
    rcases hnx : lx.chars[1]? with _ | ⟨p2, d⟩ <;> rw [hnx] at hres <;>
      simp only at hres
    · cases hres; simp only; omega
    · by_cases hd : d.isDigit = true
      · rw [if_pos hd] at hres
        have := lexNumber_chars_le lx p c rest h (Or.inr h16) rl hres
        omega
      · rw [if_neg hd] at hres; cases hres; simp only; omega
  rw [if_neg h16] at hres
  by_cases h17 : (c.isAlpha || c = '_') = true
  · rw [if_pos h17] at hres
    have hau : c.isAlpha = true ∨ c = '_' := by
      rcases Bool.or_eq_true _ _ |>.mp h17 with ha | hu
      · exact Or.inl ha
      · exact Or.inr (by simpa using hu)
    have := lexIdent_chars_le lx p c rest h hau rl hres
    omega
  rw [if_neg h17] at hres
  cases hres
  simp only
  omega

/-- Result of the tokenize loop: a Rust panic propagated out of
`lex_number`/`lex_ident`, fuel exhaustion (unreachable from `tokenize`, see
`tokenizeLoop_no_fuelOut`), or the accumulated tokens and errors of the full
scan. -/
inductive LoopRes where
  | panicked
  | fuelOut
  | done (tokens : List (Spanned Token)) (errors : List (Spanned LexError))
deriving Repr

/-- The main loop of `Lexer::tokenize`: skip whitespace, peek, dispatch on the
peeked character, then record the produced token or error under the span
running from the peeked offset `start` to `current_pos + 1`.  The `Nat` is
fuel driving the recursion; every iteration consumes at least one character,
so the fuel `tokenize` supplies never runs out
(`tokenizeLoop_no_fuelOut`). -/
def Lexer.tokenizeLoop : Nat → Lexer → List (Spanned Token) →
    List (Spanned LexError) → LoopRes
  | 0, _, _, _ => .fuelOut
  | Nat.succ fuel, lx, tokens, errors =>
    match lx.skipWhitespace.chars with
    | [] => .done tokens errors
    | (start, c) :: _ =>
      match lx.skipWhitespace.lexDispatch c with
      | none => .panicked
      | some (res, lx2) =>
        let espan : Span := ⟨lx.srcId, start, lx2.currentPos + 1⟩
        match res with
        | .ok t => Lexer.tokenizeLoop fuel lx2 (tokens ++ [(t, espan)]) errors
        | .error e => Lexer.tokenizeLoop fuel lx2 tokens (errors ++ [(e, espan)])

/-- The fuel `tokenize` hands to `tokenizeLoop` is always sufficient: every
iteration consumes at least one character (`lexDispatch_chars_lt`), so with
more fuel than remaining characters the loop never exhausts it. -/
lemma tokenizeLoop_no_fuelOut (fuel : Nat) :
    ∀ (lx : Lexer) (toks : List (Spanned Token)) (errs : List (Spanned LexError)),
      lx.chars.length < fuel →
      Lexer.tokenizeLoop fuel lx toks errs ≠ .fuelOut := by
  induction fuel with
  | zero => intro lx toks errs h; omega
  | succ f ih =>
    intro lx toks errs h
    simp only [Lexer.tokenizeLoop]
    split
    · simp
    · rename_i start c tail hw
      split
      · simp
      · rename_i res lx2 hd
        have hlt := lexDispatch_chars_lt lx.skipWhitespace start c tail hw _ hd
        have hle := skipWhitespace_chars_le lx
        have hlt2 : lx2.chars.length < lx.skipWhitespace.chars.length := hlt
        split
        · exact ih _ _ _ (by omega)
        · exact ih _ _ _ (by omega)

/-- `Lexer::tokenize`: runs the loop from the given state, appends the `Eof`
token at the byte length of the source, and returns the tokens when no error
was recorded, the error list otherwise.  `none` models a Rust panic (the
`fuelOut` branch is unreachable by `tokenizeLoop_no_fuelOut`). -/
def Lexer.tokenize (lx : Lexer) :
    Option (Except (List (Spanned LexError)) (List (Spanned Token))) :=
  match Lexer.tokenizeLoop (lx.chars.length + 1) lx [] [] with
  | .panicked => none
  | .fuelOut => none
  | .done tokens errors =>
    let eofPos := utf8Len lx.source
    let tokens := tokens ++ [(Token.Eof, ⟨lx.srcId, eofPos, eofPos⟩)]
    some (if errors.isEmpty then .ok tokens else .error errors)

/-- Entry point used by the theorems: lex a string as `Lexer::new` followed by
`tokenize` (source identifier 0). -/
def lexTokenize (input : String) :
    Option (Except (List (Spanned LexError)) (List (Spanned Token))) :=
  (Lexer.new 0 input.toList).tokenize

/-- `Type` from ast.rs (named `Ty` here since `Type` is a Lean sort). -/
inductive Ty where
  | Int | Char | Bool | Real | Unit
deriving DecidableEq, Repr

/-- `BinaryOp` from ast.rs. -/
inductive BinaryOp where
  | Sub | Mul | Div | Rem
  | Eq | NotEq | Less | LessEq | Greater | GreaterEq
  | And | Or
deriving DecidableEq, Repr

/-- `UnaryOp` from ast.rs. -/
inductive UnaryOp where
  | Neg | Not
deriving DecidableEq, Repr

/-- `BorrowOp` from ast.rs. -/
inductive BorrowOp where
  | Ref | RefMut
deriving DecidableEq, Repr

/-- `Literal` from ast.rs.  As with `Token.Real`, the `f64` payload is
modelled by the literal text the parser received in the token. -/
inductive Lit where
  | Int (v : Nat)
  | Char (c : Chr)
  | Bool (b : Bl)
  | Real (text : Str)
  | Unit
deriving DecidableEq, Repr

/-- `Expr`: the expression tree the parser builds.  parser.rs constructs
exactly the variants below (under the names it uses: it writes
`Expr::Literal`, while the ast.rs draft declares that variant as `Value` and
additionally declares `Apply`/`Let`/`If` variants that no parser path
constructs; those drafts disagree, and the parser is the authority for what
its output contains).  `Ident(Intern<String>)` is modelled as the plain
string. -/
inductive Expr where
  | Literal (lit : Lit)
  | Local (id : Str)
  | Unary (op : Spanned UnaryOp) (expr : Expr × Span)
  | Borrow (op : Spanned BorrowOp) (expr : Expr × Span)
  | Binary (left : Expr × Span) (op : Spanned BinaryOp) (right : Expr × Span)
deriving Repr

/-- `ParseError` from parser.rs (the `SourceSpan` labels are kept as spans). -/
inductive ParseError where
  | UnexpectedToken (expected found : Token) (span : Span)
  | UnexpectedEOF
  | ExpectedType (found : Token) (span : Span)
  | ExpectedPrimary (span : Span)
  | ExpectedDelimiter (expected opened : Token) (openSpan endSpan : Span)
deriving Repr

/-- The parser state from parser.rs: the token vector, the cursor `pos`, and
the cached `len`. -/
structure Parser where
  tokens : List (Spanned Token)
  pos : Nat
  len : Nat
deriving Repr

/-- `Parser::new`. -/
def Parser.new (tokens : List (Spanned Token)) : Parser :=
  { len := tokens.length, tokens := tokens, pos := 0 }

/-- `Parser::current` — `&self.tokens[self.pos]`; `none` models the panic when
`pos` is out of bounds (possible only for an empty token vector, which the
lexer never produces). -/
def Parser.currentTok (p : Parser) : Option (Spanned Token) :=
  p.tokens[p.pos]?

/-- `Parser::advance`: returns the current token and increments `pos` unless
it already sits on the last token (so repeated calls at the end keep
returning `Eof`). -/
def Parser.advance (p : Parser) : Option (Spanned Token × Parser) :=
  match p.currentTok with
  | none => none
  | some tk =>
    some (tk, if p.pos < p.len - 1 then { p with pos := p.pos + 1 } else p)

/-- `Parser::parse_type`.  The source matches `KwInt`, `KwUnit`, `KwReal`,
`KwChar` — and nothing else — before falling through to `ExpectedType`. -/
def Parser.parseType (p : Parser) :
    Option (Except ParseError (Spanned Ty) × Parser) :=
  match p.advance with
  | none => none
  | some ((token, span), p1) =>
    match token with
    | .KwInt => some (.ok (.Int, span), p1)
    | .KwUnit => some (.ok (.Unit, span), p1)
    | .KwReal => some (.ok (.Real, span), p1)
    | .KwChar => some (.ok (.Char, span), p1)
    | _ => some (.error (.ExpectedType token span), p1)

/-- `Parser::binary`: builds a `Binary` node whose span is
`left.span().merge(right.span())`. -/
def Parser.binary (left : Spanned Expr) (op : BinaryOp) (opSpan : Span)
    (right : Spanned Expr) : Spanned Expr :=
  let span := left.span.merge right.span
  (.Binary left (op, opSpan) right, span)

mutual

/-- `Parser::parse_primary`.  All parser functions carry a fuel argument to
drive the mutual recursion; `none` covers fuel exhaustion (never reached by
the theorems, which supply ample fuel) as well as the out-of-bounds panic of
`current` on an empty token vector. -/
def parsePrimary : Nat → Parser →
    Option (Except ParseError (Spanned Expr) × Parser)
  | 0, _ => none
  | Nat.succ fuel, p =>
    match p.advance with
    | none => none
    | some ((token, span), p1) =>
      match token with
      | .Int v => some (.ok (.Literal (.Int v), span), p1)
      | .Real x => some (.ok (.Literal (.Real x), span), p1)
      | .Char c => some (.ok (.Literal (.Char c), span), p1)
      | .Ident s => some (.ok (.Local s, span), p1)
      | .LParen =>
        match p1.currentTok with
        | none => none
        | some (t, _) =>
          if t = .RParen then
            match p1.advance with
            | none => none
            | some ((_, rspan), p2) =>
              some (.ok (.Literal .Unit, span.merge rspan), p2)
          else
            match parseExpr fuel p1 with
            | none => none
            | some (.error e, p2) => some (.error e, p2)
            | some (.ok (expr, exprSpan), p2) =>
              match p2.currentTok with
              | none => none
              | some (t2, _) =>
                match t2 with
                | .RParen =>
                  match p2.advance with
                  | none => none
                  | some ((_, rspan), p3) =>
                    some (.ok (expr, (span.merge exprSpan).merge rspan), p3)
                | _ =>
                  some (.error (.ExpectedDelimiter .RParen .LParen span exprSpan), p2)
      | _ => some (.error (.ExpectedPrimary span), p1)

/-- `Parser::parse_unary`: prefix `not`/`~` (unary) and `&`/`& mut` (borrow),
falling through to `parse_primary`. -/
def parseUnary : Nat → Parser →
    Option (Except ParseError (Spanned Expr) × Parser)
  | 0, _ => none
  | Nat.succ fuel, p =>
    match p.currentTok with
    | none => none
    | some (t, _) =>
      match t with
      | .KwNot | .Tilde =>
        let op : UnaryOp := if t = .KwNot then .Not else .Neg
        match p.advance with
        | none => none
        | some ((_, opSpan), p1) =>
          match parseUnary fuel p1 with
          | none => none
          | some (.error e, p2) => some (.error e, p2)
          | some (.ok (expr, exprSpan), p2) =>
            some (.ok (.Unary (op, opSpan) (expr, exprSpan),
              opSpan.merge exprSpan), p2)
      | .And =>
        match p.advance with
        | none => none
        | some ((_, opSpan0), p1) =>
          match p1.currentTok with
          | none => none
          | some (t1, _) =>
            match (if t1 = .KwMut then
                match p1.advance with
                | none => none
                | some ((_, mutSpan), p2) =>
                  some ((BorrowOp.RefMut, opSpan0.merge mutSpan), p2)
              else some ((BorrowOp.Ref, opSpan0), p1)) with
            | none => none
            | some ((op, opSpan), p2) =>
              match parseUnary fuel p2 with
              | none => none
              | some (.error e, p3) => some (.error e, p3)
              | some (.ok (expr, exprSpan), p3) =>
                some (.ok (.Borrow (op, opSpan) (expr, exprSpan),
                  opSpan.merge exprSpan), p3)
      | _ => parsePrimary fuel p

/-- The `loop` of `Parser::parse_multiplicative`: `*` is `Mul`, `div` is
`Div`, `mod` is `Rem`. -/
def multLoop : Nat → Spanned Expr → Parser →
    Option (Except ParseError (Spanned Expr) × Parser)
  | 0, _, _ => none
  | Nat.succ fuel, left, p =>
    match p.currentTok with
    | none => none
    | some (t, _) =>
      match (match t with
          | Token.Star => some BinaryOp.Mul
          | Token.KwDiv => some BinaryOp.Div
          | Token.KwMod => some BinaryOp.Rem
          | _ => none) with
      | none => some (.ok left, p)
      | some op =>
        match p.advance with
        | none => none
        | some ((_, opSpan), p1) =>
          match parseUnary fuel p1 with
          | none => none
          | some (.error e, p2) => some (.error e, p2)
          | some (.ok right, p2) =>
            multLoop fuel (Parser.binary left op opSpan right) p2

/-- `Parser::parse_multiplicative`. -/
def parseMultiplicative : Nat → Parser →
    Option (Except ParseError (Spanned Expr) × Parser)
  | 0, _ => none
  | Nat.succ fuel, p =>
    match parseUnary fuel p with
    | none => none
    | some (.error e, p1) => some (.error e, p1)
    | some (.ok left, p1) => multLoop fuel left p1

/-- The `loop` of `Parser::parse_additive`: the source maps `Plus` to
`BinaryOp::And` (sic — this is what parser.rs line 249 does) and `Minus` to
`BinaryOp::Sub`. -/
def addLoop : Nat → Spanned Expr → Parser →
    Option (Except ParseError (Spanned Expr) × Parser)
  | 0, _, _ => none
  | Nat.succ fuel, left, p =>
    match p.currentTok with
    | none => none
    | some (t, _) =>
      match (match t with
          | Token.Plus => some BinaryOp.And
          | Token.Minus => some BinaryOp.Sub
          | _ => none) with
      | none => some (.ok left, p)
      | some op =>
        match p.advance with
        | none => none
        | some ((_, opSpan), p1) =>
          match parseMultiplicative fuel p1 with
          | none => none
          | some (.error e, p2) => some (.error e, p2)
          | some (.ok right, p2) =>
            addLoop fuel (Parser.binary left op opSpan right) p2

/-- `Parser::parse_additive`. -/
def parseAdditive : Nat → Parser →
    Option (Except ParseError (Spanned Expr) × Parser)
  | 0, _ => none
  | Nat.succ fuel, p =>
    match parseMultiplicative fuel p with
    | none => none
    | some (.error e, p1) => some (.error e, p1)
    | some (.ok left, p1) => addLoop fuel left p1

/-- The `loop` of `Parser::parse_comparison`. -/
def cmpLoop : Nat → Spanned Expr → Parser →
    Option (Except ParseError (Spanned Expr) × Parser)
  | 0, _, _ => none
  | Nat.succ fuel, left, p =>
    match p.currentTok with
    | none => none
    | some (t, _) =>
      match (match t with
          | Token.Gt => some BinaryOp.Greater
          | Token.GtEq => some BinaryOp.GreaterEq
          | Token.Less => some BinaryOp.Less
          | Token.LessEq => some BinaryOp.LessEq
          | Token.NotEq => some BinaryOp.NotEq
          | Token.Eq => some BinaryOp.Eq
          | _ => none) with
      | none => some (.ok left, p)
      | some op =>
        match p.advance with
        | none => none
        | some ((_, opSpan), p1) =>
          match parseAdditive fuel p1 with
          | none => none
          | some (.error e, p2) => some (.error e, p2)
          | some (.ok right, p2) =>
            cmpLoop fuel (Parser.binary left op opSpan right) p2

/-- `Parser::parse_comparison`. -/
def parseComparison : Nat → Parser →
    Option (Except ParseError (Spanned Expr) × Parser)
  | 0, _ => none
  | Nat.succ fuel, p =>
    match parseAdditive fuel p with
    | none => none
    | some (.error e, p1) => some (.error e, p1)
    | some (.ok left, p1) => cmpLoop fuel left p1

/-- The `while let` loop of `Parser::parse_and_op` (`&&` is `And`). -/
def andLoop : Nat → Spanned Expr → Parser →
    Option (Except ParseError (Spanned Expr) × Parser)
  | 0, _, _ => none
  | Nat.succ fuel, left, p =>
    match p.currentTok with
    | none => none
    | some (t, _) =>
      match t with
      | Token.AndAnd =>
        match p.advance with
        | none => none
        | some ((_, opSpan), p1) =>
          match parseComparison fuel p1 with
          | none => none
          | some (.error e, p2) => some (.error e, p2)
          | some (.ok right, p2) =>
            andLoop fuel (Parser.binary left BinaryOp.And opSpan right) p2
      | _ => some (.ok left, p)

/-- `Parser::parse_and_op`. -/
def parseAndOp : Nat → Parser →
    Option (Except ParseError (Spanned Expr) × Parser)
  | 0, _ => none
  | Nat.succ fuel, p =>
    match parseComparison fuel p with
    | none => none
    | some (.error e, p1) => some (.error e, p1)
    | some (.ok left, p1) => andLoop fuel left p1

/-- The `while let` loop of `Parser::parse_or_op` (`||` is `Or`). -/
def orLoop : Nat → Spanned Expr → Parser →
    Option (Except ParseError (Spanned Expr) × Parser)
  | 0, _, _ => none
  | Nat.succ fuel, left, p =>
    match p.currentTok with
    | none => none
    | some (t, _) =>
      match t with
      | Token.Or =>
        match p.advance with
        | none => none
        | some ((_, opSpan), p1) =>
          match parseAndOp fuel p1 with
          | none => none
          | some (.error e, p2) => some (.error e, p2)
          | some (.ok right, p2) =>
            orLoop fuel (Parser.binary left BinaryOp.Or opSpan right) p2
      | _ => some (.ok left, p)

/-- `Parser::parse_or_op`. -/
def parseOrOp : Nat → Parser →
    Option (Except ParseError (Spanned Expr) × Parser)
  | 0, _ => none
  | Nat.succ fuel, p =>
    match parseAndOp fuel p with
    | none => none
    | some (.error e, p1) => some (.error e, p1)
    | some (.ok left, p1) => orLoop fuel left p1

/-- `Parser::parse_expr`: delegates to `parse_or_op`. -/
def parseExpr : Nat → Parser →
    Option (Except ParseError (Spanned Expr) × Parser)
  | 0, _ => none
  | Nat.succ fuel, p => parseOrOp fuel p

end

/-- `Parser::parse_code`: delegates to `parse_or_op`. -/
def Parser.parseCode (fuel : Nat) (p : Parser) :
    Option (Except ParseError (Spanned Expr) × Parser) :=
  parseOrOp fuel p

/-- Containment of byte ranges: `inner` lies within `outer`. -/
def Span.containsSpan (outer inner : Span) : Bool :=
  decide (outer.start ≤ inner.start) && decide (inner.stop ≤ outer.stop)

/-- The span invariant over parser output: every `Binary` node's span contains
the join of its children's spans, every `Unary` and `Borrow` node's span
contains the join of the operator span and the operand span, recursively.
Equality holds at the node's construction site (`Parser::binary` and
`parse_unary`), but the parenthesised case of `parse_primary` widens the
recorded span of the enclosed node to the parentheses, so containment is the
invariant that survives. -/
def spanOk : Expr → Span → Bool
  | .Literal _, _ => true
  | .Local _, _ => true
  | .Unary op (e, es), s =>
    Span.containsSpan s (op.2.merge es) && spanOk e es
  | .Borrow op (e, es), s =>
    Span.containsSpan s (op.2.merge es) && spanOk e es
  | .Binary (l, ls) _ (r, rs), s =>
    Span.containsSpan s (ls.merge rs) && spanOk l ls && spanOk r rs

lemma containsSpan_refl (a : Span) : Span.containsSpan a a = true := by
  simp [Span.containsSpan]

lemma containsSpan_trans (a b c : Span) (h1 : Span.containsSpan a b = true)
    (h2 : Span.containsSpan b c = true) : Span.containsSpan a c = true := by
  simp only [Span.containsSpan, Bool.and_eq_true, decide_eq_true_eq] at *
  omega

lemma containsSpan_merge_left (a b : Span) :
    Span.containsSpan (a.merge b) a = true := by
  simp only [Span.containsSpan, Span.merge, Bool.and_eq_true, decide_eq_true_eq]
  omega

lemma containsSpan_merge_right (a b : Span) :
    Span.containsSpan (a.merge b) b = true := by
  simp only [Span.containsSpan, Span.merge, Bool.and_eq_true, decide_eq_true_eq]
  omega

lemma spanOk_mono (e : Expr) (s s' : Span)
    (hs : Span.containsSpan s' s = true) (h : spanOk e s = true) :
    spanOk e s' = true := by
  cases e with
  | Literal _ => simp [spanOk]
  | Local _ => simp [spanOk]
  | Unary op ex =>
    obtain ⟨e1, es⟩ := ex
    simp only [spanOk, Bool.and_eq_true] at h ⊢
    exact ⟨containsSpan_trans _ _ _ hs h.1, h.2⟩
  | Borrow op ex =>
    obtain ⟨e1, es⟩ := ex
    simp only [spanOk, Bool.and_eq_true] at h ⊢
    exact ⟨containsSpan_trans _ _ _ hs h.1, h.2⟩
  | Binary l op r =>
    obtain ⟨l1, ls⟩ := l
    obtain ⟨r1, rs⟩ := r
    simp only [spanOk, Bool.and_eq_true] at h ⊢
    exact ⟨⟨containsSpan_trans _ _ _ hs h.1.1, h.1.2⟩, h.2⟩

lemma binary_spanOk (left : Spanned Expr) (op : BinaryOp) (opSpan : Span)
    (right : Spanned Expr) (hl : spanOk left.1 left.2 = true)
    (hr : spanOk right.1 right.2 = true) :
    spanOk (Parser.binary left op opSpan right).1
      (Parser.binary left op opSpan right).2 = true := by
  obtain ⟨l1, ls⟩ := left
  obtain ⟨r1, rs⟩ := right
  simp only [Parser.binary, Spanned.span, spanOk, Bool.and_eq_true]
  exact ⟨⟨containsSpan_refl _, hl⟩, hr⟩

/-- The simultaneous span invariant for every parser function: whenever a
parse succeeds, the returned expression satisfies `spanOk`; the loop
statements additionally assume the invariant for the accumulated left
operand.  Proved by induction on the fuel. -/
lemma parse_spanOk (fuel : Nat) :
    (∀ p e0 s0 q, parsePrimary fuel p = some (.ok (e0, s0), q) → spanOk e0 s0 = true) ∧
    (∀ p e0 s0 q, parseUnary fuel p = some (.ok (e0, s0), q) → spanOk e0 s0 = true) ∧
    (∀ left p e0 s0 q, spanOk left.1 left.2 = true →
      multLoop fuel left p = some (.ok (e0, s0), q) → spanOk e0 s0 = true) ∧
    (∀ p e0 s0 q, parseMultiplicative fuel p = some (.ok (e0, s0), q) → spanOk e0 s0 = true) ∧
    (∀ left p e0 s0 q, spanOk left.1 left.2 = true →
      addLoop fuel left p = some (.ok (e0, s0), q) → spanOk e0 s0 = true) ∧
    (∀ p e0 s0 q, parseAdditive fuel p = some (.ok (e0, s0), q) → spanOk e0 s0 = true) ∧
    (∀ left p e0 s0 q, spanOk left.1 left.2 = true →
      cmpLoop fuel left p = some (.ok (e0, s0), q) → spanOk e0 s0 = true) ∧
    (∀ p e0 s0 q, parseComparison fuel p = some (.ok (e0, s0), q) → spanOk e0 s0 = true) ∧
    (∀ left p e0 s0 q, spanOk left.1 left.2 = true →
      andLoop fuel left p = some (.ok (e0, s0), q) → spanOk e0 s0 = true) ∧
    (∀ p e0 s0 q, parseAndOp fuel p = some (.ok (e0, s0), q) → spanOk e0 s0 = true) ∧
    (∀ left p e0 s0 q, spanOk left.1 left.2 = true →
      orLoop fuel left p = some (.ok (e0, s0), q) → spanOk e0 s0 = true) ∧
    (∀ p e0 s0 q, parseOrOp fuel p = some (.ok (e0, s0), q) → spanOk e0 s0 = true) ∧
    (∀ p e0 s0 q, parseExpr fuel p = some (.ok (e0, s0), q) → spanOk e0 s0 = true) := by
  induction fuel with
  | zero =>
    refine ⟨?_, ?_, ?_, ?_, ?_, ?_, ?_, ?_, ?_, ?_, ?_, ?_, ?_⟩
    · intro p e0 s0 q h; simp [parsePrimary] at h
    · intro p e0 s0 q h; simp [parseUnary] at h
    · intro left p e0 s0 q hL h; simp [multLoop] at h
    · intro p e0 s0 q h; simp [parseMultiplicative] at h
    · intro left p e0 s0 q hL h; simp [addLoop] at h
    · intro p e0 s0 q h; simp [parseAdditive] at h
    · intro left p e0 s0 q hL h; simp [cmpLoop] at h
    · intro p e0 s0 q h; simp [parseComparison] at h
    · intro left p e0 s0 q hL h; simp [andLoop] at h
    · intro p e0 s0 q h; simp [parseAndOp] at h
    · intro left p e0 s0 q hL h; simp [orLoop] at h
    · intro p e0 s0 q h; simp [parseOrOp] at h
    · intro p e0 s0 q h; simp [parseExpr] at h
  | succ f ih =>
    obtain ⟨ihP, ihU, ihML, ihM, ihAL, ihA, ihCL, ihC, ihNL, ihN, ihOL, ihO, ihE⟩ := ih
    have stepP : ∀ p e0 s0 q,
        parsePrimary (f + 1) p = some (.ok (e0, s0), q) → spanOk e0 s0 = true := by
      intro p e0 s0 q h
      simp only [parsePrimary] at h
      split at h
      · exact absurd h (by simp)
      split at h
      · simp only [Option.some.injEq, Prod.mk.injEq, Except.ok.injEq] at h
        obtain ⟨⟨h1, h2⟩, _⟩ := h
        subst h1 h2
        simp [spanOk]
      · simp only [Option.some.injEq, Prod.mk.injEq, Except.ok.injEq] at h
        obtain ⟨⟨h1, h2⟩, _⟩ := h
        subst h1 h2
        simp [spanOk]
      · simp only [Option.some.injEq, Prod.mk.injEq, Except.ok.injEq] at h
        obtain ⟨⟨h1, h2⟩, _⟩ := h
        subst h1 h2
        simp [spanOk]
      · simp only [Option.some.injEq, Prod.mk.injEq, Except.ok.injEq] at h
        obtain ⟨⟨h1, h2⟩, _⟩ := h
        subst h1 h2
        simp [spanOk]
      · split at h
        · exact absurd h (by simp)
        split at h
        · split at h
          · exact absurd h (by simp)
          · simp only [Option.some.injEq, Prod.mk.injEq, Except.ok.injEq] at h
            obtain ⟨⟨h1, h2⟩, _⟩ := h
            subst h1 h2
            simp [spanOk]
        · split at h
          · exact absurd h (by simp)
          · exact absurd h (by simp)
          · rename_i expr exprSpan p2 heq
            split at h
            · exact absurd h (by simp)
            split at h
            · split at h
              · exact absurd h (by simp)
              · simp only [Option.some.injEq, Prod.mk.injEq, Except.ok.injEq] at h
                obtain ⟨⟨h1, h2⟩, _⟩ := h
                subst h1 h2
                refine spanOk_mono expr exprSpan _ ?_ (ihE _ _ _ _ heq)
                exact containsSpan_trans _ _ _ (containsSpan_merge_left _ _)
                  (containsSpan_merge_right _ _)
            · exact absurd h (by simp)
      · exact absurd h (by simp)
    have stepU : ∀ p e0 s0 q,
        parseUnary (f + 1) p = some (.ok (e0, s0), q) → spanOk e0 s0 = true := by
      intro p e0 s0 q h
      simp only [parseUnary] at h
      split at h
      · exact absurd h (by simp)
      split at h
      · -- KwNot
        split at h
        · exact absurd h (by simp)
        split at h
        · exact absurd h (by simp)
        · exact absurd h (by simp)
        · rename_i expr exprSpan p2 heq
          simp only [Option.some.injEq, Prod.mk.injEq, Except.ok.injEq] at h
          obtain ⟨⟨h1, h2⟩, _⟩ := h
          subst h1 h2
          simp only [spanOk, Bool.and_eq_true]
          exact ⟨containsSpan_refl _, ihU _ _ _ _ heq⟩
      · -- Tilde
        split at h
        · exact absurd h (by simp)
        split at h
        · exact absurd h (by simp)
        · exact absurd h (by simp)
        · rename_i expr exprSpan p2 heq
          simp only [Option.some.injEq, Prod.mk.injEq, Except.ok.injEq] at h
          obtain ⟨⟨h1, h2⟩, _⟩ := h
          subst h1 h2
          simp only [spanOk, Bool.and_eq_true]
          exact ⟨containsSpan_refl _, ihU _ _ _ _ heq⟩
      · -- And (borrow)
        split at h
        · exact absurd h (by simp)
        split at h
        · exact absurd h (by simp)
        split at h
        · exact absurd h (by simp)
        split at h
        · exact absurd h (by simp)
        · exact absurd h (by simp)
        · rename_i expr exprSpan p3 heq
          simp only [Option.some.injEq, Prod.mk.injEq, Except.ok.injEq] at h
          obtain ⟨⟨h1, h2⟩, _⟩ := h
          subst h1 h2
          simp only [spanOk, Bool.and_eq_true]
          exact ⟨containsSpan_refl _, ihU _ _ _ _ heq⟩
      · exact ihP _ _ _ _ h
    have stepML : ∀ left p e0 s0 q, spanOk left.1 left.2 = true →
        multLoop (f + 1) left p = some (.ok (e0, s0), q) → spanOk e0 s0 = true := by
      intro left p e0 s0 q hL h
      simp only [multLoop] at h
      split at h
      · exact absurd h (by simp)
      split at h
      · simp only [Option.some.injEq, Prod.mk.injEq, Except.ok.injEq] at h
        obtain ⟨h1, _⟩ := h
        rw [h1] at hL
        simpa using hL
      · split at h
        · exact absurd h (by simp)
        split at h
        · exact absurd h (by simp)
        · exact absurd h (by simp)
        · rename_i right p2 heq
          exact ihML _ _ _ _ _
            (binary_spanOk left _ _ right hL (ihU _ _ _ _ heq)) h
    have stepM : ∀ p e0 s0 q,
        parseMultiplicative (f + 1) p = some (.ok (e0, s0), q) → spanOk e0 s0 = true := by
      intro p e0 s0 q h
      simp only [parseMultiplicative] at h
      split at h
      · exact absurd h (by simp)
      · exact absurd h (by simp)
      · rename_i left p1 heq
        exact ihML _ _ _ _ _ (ihU _ _ _ _ heq) h
    have stepAL : ∀ left p e0 s0 q, spanOk left.1 left.2 = true →
        addLoop (f + 1) left p = some (.ok (e0, s0), q) → spanOk e0 s0 = true := by
      intro left p e0 s0 q hL h
      simp only [addLoop] at h
      split at h
      · exact absurd h (by simp)
      split at h
      · simp only [Option.some.injEq, Prod.mk.injEq, Except.ok.injEq] at h
        obtain ⟨h1, _⟩ := h
        rw [h1] at hL
        simpa using hL
      · split at h
        · exact absurd h (by simp)
        split at h
        · exact absurd h (by simp)
        · exact absurd h (by simp)
        · rename_i right p2 heq
          exact ihAL _ _ _ _ _
            (binary_spanOk left _ _ right hL (ihM _ _ _ _ heq)) h
    have stepA : ∀ p e0 s0 q,
        parseAdditive (f + 1) p = some (.ok (e0, s0), q) → spanOk e0 s0 = true := by
      intro p e0 s0 q h
      simp only [parseAdditive] at h
      split at h
      · exact absurd h (by simp)
      · exact absurd h (by simp)
      · rename_i left p1 heq
        exact ihAL _ _ _ _ _ (ihM _ _ _ _ heq) h
    have stepCL : ∀ left p e0 s0 q, spanOk left.1 left.2 = true →
        cmpLoop (f + 1) left p = some (.ok (e0, s0), q) → spanOk e0 s0 = true := by
      intro left p e0 s0 q hL h
      simp only [cmpLoop] at h
      split at h
      · exact absurd h (by simp)
      split at h
      · simp only [Option.some.injEq, Prod.mk.injEq, Except.ok.injEq] at h
        obtain ⟨h1, _⟩ := h
        rw [h1] at hL
        simpa using hL
      · split at h
        · exact absurd h (by simp)
        split at h
        · exact absurd h (by simp)
        · exact absurd h (by simp)
        · rename_i right p2 heq
          exact ihCL _ _ _ _ _
            (binary_spanOk left _ _ right hL (ihA _ _ _ _ heq)) h
    have stepC : ∀ p e0 s0 q,
        parseComparison (f + 1) p = some (.ok (e0, s0), q) → spanOk e0 s0 = true := by
      intro p e0 s0 q h
      simp only [parseComparison] at h
      split at h
      · exact absurd h (by simp)
      · exact absurd h (by simp)
      · rename_i left p1 heq
        exact ihCL _ _ _ _ _ (ihA _ _ _ _ heq) h
    have stepNL : ∀ left p e0 s0 q, spanOk left.1 left.2 = true →
        andLoop (f + 1) left p = some (.ok (e0, s0), q) → spanOk e0 s0 = true := by
      intro left p e0 s0 q hL h
      simp only [andLoop] at h
      split at h
      · exact absurd h (by simp)
      split at h
      · split at h
        · exact absurd h (by simp)
        split at h
        · exact absurd h (by simp)
        · exact absurd h (by simp)
        · rename_i right p2 heq
          exact ihNL _ _ _ _ _
            (binary_spanOk left _ _ right hL (ihC _ _ _ _ heq)) h
      · simp only [Option.some.injEq, Prod.mk.injEq, Except.ok.injEq] at h
        obtain ⟨h1, _⟩ := h
        rw [h1] at hL
        simpa using hL
    have stepN : ∀ p e0 s0 q,
        parseAndOp (f + 1) p = some (.ok (e0, s0), q) → spanOk e0 s0 = true := by
      intro p e0 s0 q h
      simp only [parseAndOp] at h
      split at h
      · exact absurd h (by simp)
      · exact absurd h (by simp)
      · rename_i left p1 heq
        exact ihNL _ _ _ _ _ (ihC _ _ _ _ heq) h
    have stepOL : ∀ left p e0 s0 q, spanOk left.1 left.2 = true →
        orLoop (f + 1) left p = some (.ok (e0, s0), q) → spanOk e0 s0 = true := by
      intro left p e0 s0 q hL h
      simp only [orLoop] at h
      split at h
      · exact absurd h (by simp)
      split at h
      · split at h
        · exact absurd h (by simp)
        split at h
        · exact absurd h (by simp)
        · exact absurd h (by simp)
        · rename_i right p2 heq
          exact ihOL _ _ _ _ _
            (binary_spanOk left _ _ right hL (ihN _ _ _ _ heq)) h
      · simp only [Option.some.injEq, Prod.mk.injEq, Except.ok.injEq] at h
        obtain ⟨h1, _⟩ := h
        rw [h1] at hL
        simpa using hL
    have stepO : ∀ p e0 s0 q,
        parseOrOp (f + 1) p = some (.ok (e0, s0), q) → spanOk e0 s0 = true := by
      intro p e0 s0 q h
      simp only [parseOrOp] at h
      split at h
      · exact absurd h (by simp)
      · exact absurd h (by simp)
      · rename_i left p1 heq
        exact ihOL _ _ _ _ _ (ihN _ _ _ _ heq) h
    have stepE : ∀ p e0 s0 q,
        parseExpr (f + 1) p = some (.ok (e0, s0), q) → spanOk e0 s0 = true := by
      intro p e0 s0 q h
      simp only [parseExpr] at h
      exact ihO _ _ _ _ h
    exact ⟨stepP, stepU, stepML, stepM, stepAL, stepA, stepCL, stepC, stepNL,
      stepN, stepOL, stepO, stepE⟩


/-- Stated from the spec's words, for comparison with the lexer's actual
output (claim C5): an identifier is non-empty and matches
`[a-zA-Z_][a-zA-Z0-9_]*` (ASCII classes). -/
def specIdentRegex (s : String) : Bool :=
  match s.toList with
  | [] => false
  | c :: rest =>
    (c.isAlpha || c = '_') && rest.all (fun d => d.isAlphanum || d = '_')

/-- The binary-operator tokens of the expression grammar, each with its
precedence level (higher binds tighter) and the `BinaryOp` the parser maps it
to — per parser.rs, which maps `Plus` to `BinaryOp::And` at the additive
level. -/
def opTable : List (Token × Nat × BinaryOp) :=
  [(.Star, 4, .Mul), (.KwDiv, 4, .Div), (.KwMod, 4, .Rem),
   (.Plus, 3, .And), (.Minus, 3, .Sub),
   (.Gt, 2, .Greater), (.GtEq, 2, .GreaterEq), (.Less, 2, .Less),
   (.LessEq, 2, .LessEq), (.NotEq, 2, .NotEq), (.Eq, 2, .Eq),
   (.AndAnd, 1, .And), (.Or, 0, .Or)]

/-- Parses the five-token stream `a t1 b t2 c` and checks that the root of
the resulting tree carries `o2`, its left child is a binary node carrying
`o1`, and its right child is the local `c` (the precedence law shape). -/
def precPairHolds (t1 t2 : Token) (o1 o2 : BinaryOp) : Bool :=
  let ts : List (Spanned Token) :=
    [(.Ident "a", ⟨0, 0, 1⟩), (t1, ⟨0, 2, 3⟩), (.Ident "b", ⟨0, 4, 5⟩),
     (t2, ⟨0, 6, 7⟩), (.Ident "c", ⟨0, 8, 9⟩), (.Eof, ⟨0, 9, 9⟩)]
  match Parser.parseCode 50 (Parser.new ts) with
  | some (.ok (Expr.Binary (Expr.Binary _ op1s _, _) op2s (Expr.Local idc, _), _), _) =>
    decide (op1s.1 = o1) && decide (op2s.1 = o2) && decide (idc = "c")
  | _ => false

/-- C1: the spec's scenario table says lexing `"1 < 2"` succeeds with
`Int(1)` at `[0,1)`, `Less` at `[2,3)`, `Int(2)` at `[4,5)` and `Eof`, and
that every token's span substrings the input to its lexeme.  The code instead
returns `Err`: `lex_number` takes `start_pos` from the stale `current_pos`
(the byte of the whitespace consumed before the literal), so the second
number is sliced as `" 2"`, `usize` parsing fails, and the lexer reports
`InvalidInt(" 2")` at span `[4,5)`.  (The code's own `test_numbers` and
`test_keywords` tests fail the same way, so this is a code bug, not spec
error.) -/
theorem c1_lex_one_less_two_errors :
    lexTokenize "1 < 2" =
      some (.error [(.InvalidInt " 2", ⟨0, 4, 5⟩)]) := rfl

/-- C2: `parse_type` accepts `int`, `unit`, `real`, `char` and maps each to
its `Type` variant, but its match has no arm for `KwBool` — contradicting the
spec ("`int|bool|char|real|unit` each map to exactly one variant") and the
parser's own `ExpectedType` help text, which lists `bool` among the type
names.  On `KwBool` it falls through to `ExpectedType`. -/
theorem c2_parse_type_bool_missing :
    ((Parser.parseType (Parser.new [(.KwInt, ⟨0, 0, 3⟩), (.Eof, ⟨0, 3, 3⟩)])).map
        Prod.fst = some (.ok (Ty.Int, ⟨0, 0, 3⟩))) ∧
    ((Parser.parseType (Parser.new [(.KwUnit, ⟨0, 0, 4⟩), (.Eof, ⟨0, 4, 4⟩)])).map
        Prod.fst = some (.ok (Ty.Unit, ⟨0, 0, 4⟩))) ∧
    ((Parser.parseType (Parser.new [(.KwReal, ⟨0, 0, 4⟩), (.Eof, ⟨0, 4, 4⟩)])).map
        Prod.fst = some (.ok (Ty.Real, ⟨0, 0, 4⟩))) ∧
    ((Parser.parseType (Parser.new [(.KwChar, ⟨0, 0, 4⟩), (.Eof, ⟨0, 4, 4⟩)])).map
        Prod.fst = some (.ok (Ty.Char, ⟨0, 0, 4⟩))) ∧
    ((Parser.parseType (Parser.new [(.KwBool, ⟨0, 0, 4⟩), (.Eof, ⟨0, 4, 4⟩)])).map
        Prod.fst = some (.error (.ExpectedType .KwBool ⟨0, 0, 4⟩))) :=
  ⟨rfl, rfl, rfl, rfl, rfl⟩

/-- C3: the claim (and the spec grammar, which reserves `+`) says a `Plus`
token never makes the additive level construct a binary node.  In the code,
`parse_additive` maps `Token::Plus` to `BinaryOp::And` and builds a node: on
the token stream `1 + 2` the parser returns `Binary{op: And, left: Int 1,
right: Int 2}`.  The spec itself calls this mapping an "obvious bug"
(section 9), so the code, not the claim, is wrong. -/
theorem c3_plus_parses_to_and_binary :
    (Parser.parseCode 30 (Parser.new
        [(.Int 1, ⟨0, 0, 1⟩), (.Plus, ⟨0, 2, 3⟩), (.Int 2, ⟨0, 4, 5⟩),
         (.Eof, ⟨0, 5, 5⟩)])).map Prod.fst =
      some (.ok (Expr.Binary (.Literal (.Int 1), ⟨0, 0, 1⟩)
        (BinaryOp.And, ⟨0, 2, 3⟩) (.Literal (.Int 2), ⟨0, 4, 5⟩),
        ⟨0, 0, 5⟩)) := rfl

/-- C4 counterexample: the claim says `"'ab'"` lexes to exactly one error,
`MultiChar` at `[0,4)`, with nothing further.  The code's output differs. -/
theorem c4_multichar_counterexample :
    lexTokenize "'ab'" ≠ some (.error [(.MultiChar, ⟨0, 0, 4⟩)]) := by
  rw [show lexTokenize "'ab'" = some (.error
    [(.MultiChar, ⟨0, 0, 3⟩), (.UnterminatedChar, ⟨0, 3, 4⟩)]) from rfl]
  simp

/-- C4 amended: lexing `"'ab'"` returns `Err` with exactly two errors:
`MultiChar` at `[0,3)` — `lex_char_literal` stops at the second payload
character without consuming the closing quote — followed by
`UnterminatedChar` at `[3,4)` from re-lexing that trailing quote; no tokens
are returned. -/
theorem c4_multichar_amended :
    lexTokenize "'ab'" = some (.error
      [(.MultiChar, ⟨0, 0, 3⟩), (.UnterminatedChar, ⟨0, 3, 4⟩)]) := rfl

/-- C5: the claim says every `Ident` token's string is non-empty and matches
`[a-zA-Z_][a-zA-Z0-9_]*` (in particular, no whitespace).  The stale
`start_pos` in `lex_ident` (the same bug as in `lex_number`) makes every
identifier that is not the very first byte of the input absorb the previously
consumed character: lexing `"a b"` yields `Ident(" b")`, whose string starts
with a space.  (The code's own `test_keywords` test fails for the same
reason.) -/
theorem c5_ident_with_space :
    lexTokenize "a b" = some (.ok
      [(.Ident "a", ⟨0, 0, 1⟩), (.Ident " b", ⟨0, 2, 3⟩), (.Eof, ⟨0, 3, 3⟩)]) ∧
    specIdentRegex " b" = false :=
  ⟨rfl, rfl⟩

/-- C6: `tokenize` returns `Err` iff the full scan recorded at least one
error, and the `Err` payload is exactly the error list of the full scan (the
loop runs to the end of the input, it does not abort at the first error);
concretely, `"? ?"` produces two `InvalidToken` errors, one per `?`, showing
scanning continued past the first error. -/
theorem c6_err_iff_errors_recorded :
    (∀ (lx : Lexer) (toks : List (Spanned Token)) (errs : List (Spanned LexError)),
      Lexer.tokenizeLoop (lx.chars.length + 1) lx [] [] = .done toks errs →
      (((∃ es, lx.tokenize = some (.error es)) ↔ errs ≠ []) ∧
        (∀ es, lx.tokenize = some (.error es) → es = errs))) ∧
    lexTokenize "? ?" = some (.error
      [(.InvalidToken, ⟨0, 0, 1⟩), (.InvalidToken, ⟨0, 2, 3⟩)]) := by
  constructor
  · intro lx toks errs h
    have htok : lx.tokenize = some (if errs.isEmpty then
        .ok (toks ++ [(Token.Eof, ⟨lx.srcId, utf8Len lx.source, utf8Len lx.source⟩)])
      else .error errs) := by
      simp [Lexer.tokenize, h]
    cases errs with
    | nil =>
      refine ⟨⟨?_, ?_⟩, ?_⟩
      · rintro ⟨es, hes⟩
        rw [htok] at hes
        simp at hes
      · intro hne
        exact absurd rfl hne
      · intro es hes
        rw [htok] at hes
        simp at hes
    | cons a as =>
      refine ⟨⟨?_, ?_⟩, ?_⟩
      · intro _
        simp
      · intro _
        exact ⟨a :: as, by rw [htok]; simp⟩
      · intro es hes
        rw [htok] at hes
        simp at hes
        exact hes.symm
  · rfl

/-- C6 witness: the general statement applied to the concrete input `"? ?"`
whose full scan records two errors. -/
theorem c6_err_iff_errors_recorded_witness :
    (∃ es, (Lexer.new 0 "? ?".toList).tokenize = some (.error es)) ↔
      ([(LexError.InvalidToken, (⟨0, 0, 1⟩ : Span)),
        (LexError.InvalidToken, ⟨0, 2, 3⟩)] ≠ []) :=
  (c6_err_iff_errors_recorded.1 (Lexer.new 0 "? ?".toList)
    [] [(.InvalidToken, ⟨0, 0, 1⟩), (.InvalidToken, ⟨0, 2, 3⟩)] rfl).1

/-- C7 counterexample: the claim says every Binary node's recorded span
equals `left.span.join(right.span)`.  For the parenthesised stream
`( 1 - 2 )` the parser returns the Binary node with recorded span `[0,5)`
(widened by `parse_primary` to cover the parentheses) while the join of its
children's spans is `[1,4)`. -/
theorem c7_paren_span_counterexample :
    ((Parser.parseCode 40 (Parser.new
        [(.LParen, ⟨0, 0, 1⟩), (.Int 1, ⟨0, 1, 2⟩), (.Minus, ⟨0, 2, 3⟩),
         (.Int 2, ⟨0, 3, 4⟩), (.RParen, ⟨0, 4, 5⟩), (.Eof, ⟨0, 5, 5⟩)])).map
      Prod.fst =
      some (.ok (Expr.Binary (.Literal (.Int 1), ⟨0, 1, 2⟩)
        (BinaryOp.Sub, ⟨0, 2, 3⟩) (.Literal (.Int 2), ⟨0, 3, 4⟩),
        ⟨0, 0, 5⟩))) ∧
    (⟨0, 0, 5⟩ : Span) ≠ Span.merge ⟨0, 1, 2⟩ ⟨0, 3, 4⟩ :=
  ⟨rfl, by decide⟩

/-- C7 amended: for every successful parse, every compound node's span
contains the join of its children's spans (the join of operator span and
operand span for Unary/Borrow), with equality at the construction sites
(`Parser::binary` and `parse_unary` build exactly the join); only
parenthesisation widens a node's recorded span beyond the join. -/
theorem c7_span_containment (fuel : Nat) (p : Parser) (e : Expr) (s : Span)
    (q : Parser) (h : Parser.parseCode fuel p = some (.ok (e, s), q)) :
    spanOk e s = true :=
  (parse_spanOk fuel).2.2.2.2.2.2.2.2.2.2.2.1 p e s q h

/-- C7 witness: the span invariant evaluated on the parse of `( 1 - 2 )`. -/
theorem c7_span_containment_witness :
    spanOk (Expr.Binary (.Literal (.Int 1), ⟨0, 1, 2⟩)
      (BinaryOp.Sub, ⟨0, 2, 3⟩) (.Literal (.Int 2), ⟨0, 3, 4⟩))
      ⟨0, 0, 5⟩ = true :=
  c7_span_containment 40 (Parser.new
      [(.LParen, ⟨0, 0, 1⟩), (.Int 1, ⟨0, 1, 2⟩), (.Minus, ⟨0, 2, 3⟩),
       (.Int 2, ⟨0, 3, 4⟩), (.RParen, ⟨0, 4, 5⟩), (.Eof, ⟨0, 5, 5⟩)])
    _ _
    ⟨[(.LParen, ⟨0, 0, 1⟩), (.Int 1, ⟨0, 1, 2⟩), (.Minus, ⟨0, 2, 3⟩),
      (.Int 2, ⟨0, 3, 4⟩), (.RParen, ⟨0, 4, 5⟩), (.Eof, ⟨0, 5, 5⟩)], 5, 6⟩
    rfl

set_option maxHeartbeats 3200000 in
/-- C8: parsing the token stream `a && b || c` yields `Or(And(a, b), c)`
with the root span `[0,11)` covering from `a`'s start to `c`'s end; and for
every ordered pair of grammar operator tokens `t1`, `t2` with `t1` of
strictly higher precedence, parsing `a t1 b t2 c` puts `t2`'s operator at the
root and `t1`'s operator at the root of its left child (checked over all 59
such pairs, with the parser's actual token-to-operator mapping). -/
theorem c8_precedence_law :
    ((Parser.parseCode 50 (Parser.new
        [(.Ident "a", ⟨0, 0, 1⟩), (.AndAnd, ⟨0, 2, 4⟩), (.Ident "b", ⟨0, 5, 6⟩),
         (.Or, ⟨0, 7, 9⟩), (.Ident "c", ⟨0, 10, 11⟩), (.Eof, ⟨0, 11, 11⟩)])).map
      Prod.fst =
      some (.ok (Expr.Binary
        (Expr.Binary (.Local "a", ⟨0, 0, 1⟩) (BinaryOp.And, ⟨0, 2, 4⟩)
          (.Local "b", ⟨0, 5, 6⟩), ⟨0, 0, 6⟩)
        (BinaryOp.Or, ⟨0, 7, 9⟩) (.Local "c", ⟨0, 10, 11⟩),
        ⟨0, 0, 11⟩))) ∧
    (opTable.all fun x1 => opTable.all fun x2 =>
      if x2.2.1 < x1.2.1 then precPairHolds x1.1 x2.1 x1.2.2 x2.2.2
      else true) = true :=
  ⟨rfl, rfl⟩

/-- C9: the claim says `tokenize` never panics and the slice bounds in
`lex_ident`/`lex_number` always fall on UTF-8 character boundaries.  On the
two-character input `"aé"` (implicitly: `é` is alphanumeric, so `lex_ident`
consumes it), `end_pos = current_pos + 1` is byte 2, the middle of the
two-byte encoding of `é` beginning at byte 1, so `&self.source[0..2]`
panics.  The embedding returns `none` exactly on that panic. -/
theorem c9_utf8_boundary_panic :
    Lexer.tokenizeLoop ((Lexer.new 0 "aé".toList).chars.length + 1)
        (Lexer.new 0 "aé".toList) [] [] = .panicked ∧
    lexTokenize "aé" = none :=
  ⟨rfl, rfl⟩

/-- C10: the parser does not require the expression to consume the whole
token stream: for any values and spans, the stream `Int n, Int m, Eof` parses
to `Ok` with just the first literal and the cursor resting on the second
token, and a complete expression followed by arbitrary junk (`RParen, KwIf`)
before `Eof` likewise parses to `Ok` with no error about the trailing
tokens. -/
theorem c10_trailing_tokens_ignored :
    (∀ (n m : Nat) (s1 s2 s3 : Span),
      Parser.parseCode 30 (Parser.new [(.Int n, s1), (.Int m, s2), (.Eof, s3)]) =
        some (.ok (.Literal (.Int n), s1),
          ⟨[(.Int n, s1), (.Int m, s2), (.Eof, s3)], 1, 3⟩)) ∧
    (∀ (n : Nat) (s1 s2 s3 s4 : Span),
      Parser.parseCode 30 (Parser.new
          [(.Int n, s1), (.RParen, s2), (.KwIf, s3), (.Eof, s4)]) =
        some (.ok (.Literal (.Int n), s1),
          ⟨[(.Int n, s1), (.RParen, s2), (.KwIf, s3), (.Eof, s4)], 1, 4⟩)) := by
  constructor
  · intro n m s1 s2 s3
    rfl
  · intro n s1 s2 s3 s4
    rfl

end Monad4
